import Mathlib

/-! Verification of the core algorithms of the a7in disk-space visualizer
(src/main.py): the entry-tree model (class `Node`), the post-order size
aggregator (`Node.aggregate_size`), the reparse-target volume classifier
(the pure tail of `is_reparse_point_target_same_volume`), the recursive
scanner (`build_tree`) over an abstract filesystem, and the strip-treemap
layout engine (`draw_node_recursive` / `draw_treemap`).

Modeling conventions: Python integers are `Nat` (byte counts) or `Int`
(pixel coordinates, which may go negative through the strip remainder);
Python float division followed by `int(...)` truncation on non-negative
operands coincides with integer floor division and is modeled by `Int`
division; mutation of a `Node` is modeled by returning the updated value;
filesystem and device I/O is modeled by data carried on abstract `FS`
nodes recording the outcomes the scanner observes. -/

/-- The entry tree (class `Node`, src/main.py lines 103-116). `children`
is `some` list for a directory and `none` (Python `None`) for a file,
mirroring `self.children = [] if is_dir else None` in `__init__`. The
GUI-only fields `rect_coords` and `canvas_id` and the non-owning `parent`
back-reference (used only for path display) are not part of the value. -/
inductive Node where
  | mk (name : String) (is_dir : Bool) (children : Option (List Node)) (size : Nat)

/-- Projection for the `name` field. -/
def Node.name : Node → String
  | .mk n _ _ _ => n

/-- Projection for the `is_dir` field. -/
def Node.is_dir : Node → Bool
  | .mk _ d _ _ => d

/-- Projection for the `children` field. -/
def Node.children : Node → Option (List Node)
  | .mk _ _ c _ => c

/-- Projection for the `size` field. -/
def Node.size : Node → Nat
  | .mk _ _ _ s => s

/-- `Node.__init__` (lines 104-112): a directory starts with an empty child
list, a file has no child list at all. -/
def Node.init (name : String) (is_dir : Bool) (size : Nat) : Node :=
  .mk name is_dir (if is_dir then some [] else none) size

/-- `Node.add_child` (lines 114-116): appends the child only when the
`children` field is present (`if self.children is not None`); on a file
node the call silently does nothing. -/
def Node.add_child : Node → Node → Node
  | .mk n d (some l) s, ch => .mk n d (some (l ++ [ch])) s
  | .mk n d none s, _ => .mk n d none s

mutual

/-- `Node.aggregate_size` (lines 131-138), modeled as a pure function
returning the updated tree together with the Python return value: a file
returns its own size unchanged; a directory overwrites its `size` with the
sum of the children's aggregated totals (post-order) and returns that sum.
A directory whose `children` field is `none` would raise a `TypeError` in
Python when iterated; that path is left as the identity here and is ruled
out by `Node.wellFormed` wherever it matters. -/
def Node.aggregate_size : Node → Node × Nat
  | .mk n d cs s =>
    if d then
      match cs with
      | some l =>
        let r := aggregate_size_loop l
        (.mk n d (some r.1) r.2, r.2)
      | none => (.mk n d cs s, s)
    else (.mk n d cs s, s)

/-- The `for ch in self.children: total += ch.aggregate_size()` loop of
lines 134-136: aggregates each child in order and sums the returned totals. -/
def aggregate_size_loop : List Node → List Node × Nat
  | [] => ([], 0)
  | c :: l =>
    let rc := c.aggregate_size
    let rl := aggregate_size_loop l
    (rc.1 :: rl.1, rc.2 + rl.2)

end

mutual

/-- Structural well-formedness: the `children` field is present exactly on
directories, recursively (the shape `Node.__init__` and `build_tree`
always produce). -/
def Node.wellFormed : Node → Bool
  | .mk _ d none _ => !d
  | .mk _ d (some l) _ => d && wellFormedList l

/-- `Node.wellFormed` on every node of a list. -/
def wellFormedList : List Node → Bool
  | [] => true
  | c :: rest => c.wellFormed && wellFormedList rest

end

mutual

/-- The aggregation invariant: every directory carries a child list and its
`size` equals the sum of its children's sizes, recursively to the leaves. -/
def Node.sizesOk : Node → Bool
  | .mk _ false _ _ => true
  | .mk _ true none _ => false
  | .mk _ true (some l) s => (s == (l.map Node.size).sum) && sizesOkList l

/-- `Node.sizesOk` on every node of a list. -/
def sizesOkList : List Node → Bool
  | [] => true
  | c :: rest => c.sizesOk && sizesOkList rest

end

mutual

/-- Erases every directory's `size` field (the only field the aggregator
overwrites), keeping names, kinds, tree shape and file sizes. -/
def Node.eraseDirSizes : Node → Node
  | .mk n d none s => .mk n d none (if d then 0 else s)
  | .mk n d (some l) s => .mk n d (some (eraseDirSizesList l)) (if d then 0 else s)

/-- `Node.eraseDirSizes` on every node of a list. -/
def eraseDirSizesList : List Node → List Node
  | [] => []
  | c :: rest => c.eraseDirSizes :: eraseDirSizesList rest

end

mutual

theorem aggregate_size_idem (t : Node) :
    Node.aggregate_size (Node.aggregate_size t).1 = Node.aggregate_size t := by
  match t with
  | .mk n false cs s => simp [Node.aggregate_size]
  | .mk n true none s => simp [Node.aggregate_size]
  | .mk n true (some l) s =>
    have ih := aggregate_size_loop_idem l
    simp [Node.aggregate_size, ih]

theorem aggregate_size_loop_idem (l : List Node) :
    aggregate_size_loop (aggregate_size_loop l).1 = aggregate_size_loop l := by
  match l with
  | [] => simp [aggregate_size_loop]
  | c :: rest =>
    have ihc := aggregate_size_idem c
    have ihr := aggregate_size_loop_idem rest
    simp [aggregate_size_loop, ihc, ihr]

end

/-- The value a call of `aggregate_size` returns is the `size` stored on
the node it leaves behind. -/
theorem aggregate_size_snd_eq_size (t : Node) :
    (Node.aggregate_size t).2 = (Node.aggregate_size t).1.size := by
  match t with
  | .mk n false cs s => simp [Node.aggregate_size, Node.size]
  | .mk n true none s => simp [Node.aggregate_size, Node.size]
  | .mk n true (some l) s => simp [Node.aggregate_size, Node.size]

/-- The loop total is the sum of the sizes stored on the aggregated
children. -/
theorem aggregate_size_loop_snd_eq_sum (l : List Node) :
    (aggregate_size_loop l).2 = ((aggregate_size_loop l).1.map Node.size).sum := by
  induction l with
  | nil => simp [aggregate_size_loop]
  | cons c rest ih =>
    simp [aggregate_size_loop, ih, aggregate_size_snd_eq_size c]

mutual

theorem aggregate_size_sizesOk (t : Node) (h : t.wellFormed = true) :
    (Node.aggregate_size t).1.sizesOk = true := by
  match t with
  | .mk n false cs s => simp [Node.aggregate_size, Node.sizesOk]
  | .mk n true none s => simp [Node.wellFormed] at h
  | .mk n true (some l) s =>
    simp [Node.wellFormed] at h
    have ih := aggregate_size_loop_sizesOk l h
    simp [Node.aggregate_size, Node.sizesOk, ih, aggregate_size_loop_snd_eq_sum l]

theorem aggregate_size_loop_sizesOk (l : List Node) (h : wellFormedList l = true) :
    sizesOkList (aggregate_size_loop l).1 = true := by
  match l with
  | [] => simp [aggregate_size_loop, sizesOkList]
  | c :: rest =>
    simp [wellFormedList] at h
    have ihc := aggregate_size_sizesOk c h.1
    have ihr := aggregate_size_loop_sizesOk rest h.2
    simp [aggregate_size_loop, sizesOkList, ihc, ihr]

end

mutual

theorem aggregate_size_eraseDirSizes (t : Node) :
    (Node.aggregate_size t).1.eraseDirSizes = t.eraseDirSizes := by
  match t with
  | .mk n false cs s => simp [Node.aggregate_size]
  | .mk n true none s => simp [Node.aggregate_size]
  | .mk n true (some l) s =>
    have ih := aggregate_size_loop_eraseDirSizes l
    simp [Node.aggregate_size, Node.eraseDirSizes, ih]

theorem aggregate_size_loop_eraseDirSizes (l : List Node) :
    eraseDirSizesList (aggregate_size_loop l).1 = eraseDirSizesList l := by
  match l with
  | [] => simp [aggregate_size_loop]
  | c :: rest =>
    have ihc := aggregate_size_eraseDirSizes c
    have ihr := aggregate_size_loop_eraseDirSizes rest
    simp [aggregate_size_loop, eraseDirSizesList, ihc, ihr]

end

/-- Claim C4: for every tree on which aggregation has run to completion
(equivalently, every well-formed tree fed to `aggregate_size`), every
directory node of the resulting tree has a `size` equal to the sum of its
children's sizes, recursively down to the leaves. -/
theorem C4_aggregated_dir_size_is_sum (t : Node) (h : t.wellFormed = true) :
    (Node.aggregate_size t).1.sizesOk = true :=
  aggregate_size_sizesOk t h

/-- Witness for C4 on a concrete two-level tree. -/
theorem C4_aggregated_dir_size_is_sum_witness :
    (Node.mk "r" true
        (some [Node.mk "a" false none 3,
               Node.mk "d" true (some [Node.mk "b" false none 4]) 0]) 99).wellFormed = true ∧
    (Node.aggregate_size (Node.mk "r" true
        (some [Node.mk "a" false none 3,
               Node.mk "d" true (some [Node.mk "b" false none 4]) 0]) 99)).1.sizesOk = true :=
  ⟨by decide, C4_aggregated_dir_size_is_sum _ (by decide)⟩

/-- Claim C7: aggregation is idempotent: re-running `aggregate_size` on the
tree an earlier run produced leaves every node (in particular every size)
unchanged and returns the same total. -/
theorem C7_aggregate_idempotent (t : Node) :
    (Node.aggregate_size (Node.aggregate_size t).1).1 = (Node.aggregate_size t).1 ∧
    (Node.aggregate_size (Node.aggregate_size t).1).2 = (Node.aggregate_size t).2 := by
  rw [aggregate_size_idem t]
  exact ⟨rfl, rfl⟩

/-- Claim C9: aggregation never modifies a file node: the aggregated tree
agrees with the input tree on everything except directory `size` fields
(so every file's size is exactly what it was), and running the aggregator
directly on a file returns it unchanged together with its size. -/
theorem C9_aggregate_frame (t : Node) :
    (Node.aggregate_size t).1.eraseDirSizes = t.eraseDirSizes ∧
    ∀ (n : String) (cs : Option (List Node)) (s : Nat),
      Node.aggregate_size (Node.mk n false cs s) = (Node.mk n false cs s, s) := by
  refine ⟨aggregate_size_eraseDirSizes t, ?_⟩
  intro n cs s
  simp [Node.aggregate_size]

/-- Claim C10: `add_child` on a file node (absent `children` field) is a
silent no-op, and `add_child` preserves the invariant that the `children`
field is present exactly on directories. -/
theorem C10_add_child_file_noop (n ch : Node) (h1 : n.is_dir = false)
    (h2 : n.children = none) :
    n.add_child ch = n ∧
    ∀ m ch2 : Node, m.children.isSome = m.is_dir →
      (m.add_child ch2).children.isSome = (m.add_child ch2).is_dir := by
  constructor
  · match n with
    | .mk nm d none s => rfl
    | .mk nm d (some l) s => simp [Node.children] at h2
  · intro m ch2 hm
    match m with
    | .mk nm d none s => simpa [Node.add_child, Node.children, Node.is_dir] using hm
    | .mk nm d (some l) s => simpa [Node.add_child, Node.children, Node.is_dir] using hm

/-- Witness for C10 on a concrete file node. -/
theorem C10_add_child_file_noop_witness :
    (Node.mk "f" false none 5).is_dir = false ∧
    (Node.mk "f" false none 5).children = none ∧
    (Node.mk "f" false none 5).add_child (Node.mk "g" false none 1) =
      Node.mk "f" false none 5 :=
  ⟨rfl, rfl,
    (C10_add_child_file_noop (Node.mk "f" false none 5) (Node.mk "g" false none 1)
      rfl rfl).1⟩

/-- Python's substring test `pat in s`, on character lists: some tail of
`s` starts with `pat`. -/
def listContains (pat : List Char) : List Char → Bool
  | [] => pat.isPrefixOf []
  | c :: rest => pat.isPrefixOf (c :: rest) || listContains pat rest

/-- Python `str.upper()` restricted to the ASCII range used by the paths
at hand. -/
def pyUpper (s : List Char) : List Char :=
  s.map Char.toUpper

/-- Python `str.rstrip(':')`: removes every trailing colon. -/
def pyRstripColon (s : List Char) : List Char :=
  (s.reverse.dropWhile (fun c => c = ':')).reverse

/-- `re.search(r'([A-Z]:)', s)` of line 93: the leftmost occurrence of an
uppercase letter immediately followed by a colon, returned as the
two-character match, `none` when there is no match. -/
def findDriveLetter : List Char → Option (List Char)
  | c1 :: c2 :: rest =>
    if ('A' ≤ c1 && c1 ≤ 'Z') && c2 = ':' then some [c1, c2]
    else findDriveLetter (c2 :: rest)
  | _ => none

/-- The volume classification tail of
`is_reparse_point_target_same_volume` (src/main.py lines 88-100). The I/O
prelude (attribute query, `CreateFileW`, `DeviceIoControl`, reparse-buffer
parsing, lines 59-86, every failure of which returns `False`) is
abstracted away: `target` is the already-extracted substitute-name string.
The three UNC patterns of line 90 are Python raw strings, so they contain
the doubled backslashes literally: `UNC\\`, `\\??\\UNC\\`, `\\?\\UNC\\`. -/
def target_same_volume (target volume_letter : String) : Bool :=
  let target_upper := pyUpper target.toList
  let vol_upper := pyUpper (pyRstripColon volume_letter.toList) ++ [':']
  if listContains "UNC\\\\".toList target_upper
      || listContains "\\\\??\\\\UNC\\\\".toList target_upper
      || listContains "\\\\?\\\\UNC\\\\".toList target_upper then
    false
  else
    match findDriveLetter target_upper with
    | some m => m == vol_upper
    | none =>
      if listContains "VOLUME\x7b".toList target_upper then false
      else false

/-- Claim C3, the code evaluated at a failing input: the reparse target
`\??\UNC\server\share\c:` contains the UNC marker `\??\UNC\`, yet the
classifier reports it as same-volume for root volume `C:`. The raw-string
patterns of line 90 carry doubled backslashes, so they can never match the
single-backslash marker of a real substitute name, and the drive-letter
search of line 93 then finds `C:` and compares it equal to the root
volume. -/
theorem C3_unc_marker_not_detected :
    listContains "\\??\\UNC\\".toList "\\??\\UNC\\server\\share\\c:".toList = true ∧
    target_same_volume "\\??\\UNC\\server\\share\\c:" "C:" = true := by
  decide

/-- An abstract filesystem subtree, carrying exactly the observations
`build_tree` makes through the OS (src/main.py lines 141-186).  For each
entry: its name; whether `is_reparse_point` reports true (line 54-56,
already false on an attribute-query failure); the result the resolver
`is_reparse_point_target_same_volume` would return for it against the
scan's root volume (lines 58-100, already false on any I/O failure); and
the kind-specific data.  A file carries the `entry.stat` outcome, `none`
when the stat raises (then the code uses size 0, lines 172-176).  A
directory carries the `os.scandir` outcome, `none` when enumeration
cannot be started (`PermissionError`, line 182, or `NotADirectoryError`
for a file root, swallowed by the outer handler of line 185). -/
inductive FS where
  | file (name : String) (reparse : Bool) (sameVol : Bool) (stat : Option Nat)
  | dir (name : String) (reparse : Bool) (sameVol : Bool) (entries : Option (List FS))

/-- The entry's name. -/
def FS.name : FS → String
  | .file n _ _ _ => n
  | .dir n _ _ _ => n

/-- The `is_reparse_point` observation for the entry. -/
def FS.reparse : FS → Bool
  | .file _ r _ _ => r
  | .dir _ r _ _ => r

/-- The `is_reparse_point_target_same_volume` observation for the entry
(with respect to the scan's root volume letter, which the source threads
through as `root_volume_letter`). -/
def FS.sameVol : FS → Bool
  | .file _ _ v _ => v
  | .dir _ _ v _ => v

/-- The `os.path.isdir` / `entry.is_dir(follow_symlinks=False)`
observation. -/
def FS.isDir : FS → Bool
  | .file _ _ _ _ => false
  | .dir _ _ _ _ => true

mutual

/-- `build_tree` (src/main.py lines 141-186). `isRoot` models
`parent is None`: the root node is forced to `is_dir=True` and its name is
the drive component of the path (name derivation from the path string is
abstracted to the stored entry name, which no property here depends on).
If the path is a reparse point whose target is not on the root volume the
call returns `none` (lines 151-154).  A directory node below `max_depth`
enumerates its children; when enumeration cannot be started the call
returns `none` (lines 182-183).  Otherwise the node is returned with the
children accepted by the enumeration loop appended in order via
`add_child` onto the initial empty list, i.e. exactly
`build_children`. -/
def build_tree (fs : FS) (isRoot : Bool) (depth max_depth : Nat) : Option Node :=
  let node_is_dir := if isRoot then true else fs.isDir
  if fs.reparse && !fs.sameVol then none
  else if node_is_dir && decide (depth < max_depth) then
    match fs with
    | .file _ _ _ _ => none
    | .dir _ _ _ none => none
    | .dir n _ _ (some l) =>
      some (.mk n node_is_dir (some (build_children l depth max_depth)) 0)
  else some (.mk fs.name node_is_dir (if node_is_dir then some [] else none) 0)
termination_by structural fs

/-- The `for entry in it` enumeration loop (lines 159-181), at the
parent's depth `depth`: a directory entry that is a foreign reparse point
is skipped (lines 163-166); any other directory entry is built recursively
at `depth+1` and added when the recursive call returns a node (lines
167-170); a file entry is added with its stat size, treated as 0 on a stat
failure, only when that size is positive (lines 171-179).  Per-entry
`PermissionError` skips are subsumed by the `none` cases. -/
def build_children (l : List FS) (depth max_depth : Nat) : List Node :=
  match l with
  | [] => []
  | e :: rest =>
    (match e with
     | .dir _ r sv _ =>
        if r && !sv then []
        else
          match build_tree e false (depth + 1) max_depth with
          | some c => [c]
          | none => []
     | .file n _ _ stat =>
        if 0 < stat.getD 0 then [Node.mk n false none (stat.getD 0)] else [])
      ++ build_children rest depth max_depth
termination_by structural l

end

mutual

/-- The depth of the deepest entry of the tree, the root itself counting
as depth 0. -/
def Node.height : Node → Nat
  | .mk _ _ none _ => 0
  | .mk _ _ (some l) _ => heightList l

/-- The deepest entry depth among the trees of `l`, each root of `l`
counting as depth 1. -/
def heightList : List Node → Nat
  | [] => 0
  | c :: rest => max (c.height + 1) (heightList rest)

end

/-- A list whose members' heights are bounded by `k` has `heightList`
bounded by `k + 1`. -/
theorem heightList_le (l : List Node) (k : Nat)
    (h : ∀ c ∈ l, c.height ≤ k) : heightList l ≤ k + 1 := by
  induction l with
  | nil => simp [heightList]
  | cons c rest ih =>
    simp only [heightList]
    have hc := h c (List.mem_cons_self c rest)
    have hr := ih (fun d hd => h d (List.mem_cons_of_mem c hd))
    omega

mutual

theorem build_tree_height (fs : FS) (isRoot : Bool) (depth max_depth : Nat) (t : Node)
    (h : build_tree fs isRoot depth max_depth = some t) :
    t.height ≤ max_depth - depth := by
  match fs with
  | .file n r sv stat =>
    rw [build_tree.eq_def] at h
    simp only [FS.reparse, FS.sameVol, FS.isDir, FS.name] at h
    split at h
    · simp at h
    · split at h
      all_goals try simp at h
      all_goals try obtain ⟨-, rfl⟩ := h
      all_goals simp [Node.height, heightList]
  | .dir n r sv none =>
    rw [build_tree.eq_def] at h
    simp only [FS.reparse, FS.sameVol, FS.isDir, FS.name, ite_self, Bool.true_and] at h
    split at h
    · simp at h
    · split at h
      all_goals try simp at h
      all_goals try obtain ⟨-, rfl⟩ := h
      all_goals simp [Node.height, heightList]
  | .dir n r sv (some l) =>
    rw [build_tree.eq_def] at h
    simp only [FS.reparse, FS.sameVol, FS.isDir, FS.name, ite_self, Bool.true_and] at h
    split at h
    · simp at h
    · split at h
      · rename_i hdeep
        simp only [Option.some.injEq] at h
        subst h
        simp only [Node.height]
        have hb : ∀ c ∈ build_children l depth max_depth,
            c.height ≤ max_depth - (depth + 1) :=
          fun c hc => build_children_height l depth max_depth c hc
        have hh := heightList_le (build_children l depth max_depth)
          (max_depth - (depth + 1)) hb
        simp only [decide_eq_true_eq] at hdeep
        omega
      · simp only [Option.some.injEq] at h
        subst h
        simp [Node.height, heightList]

theorem build_children_height (l : List FS) (depth max_depth : Nat) (c : Node)
    (hc : c ∈ build_children l depth max_depth) :
    c.height ≤ max_depth - (depth + 1) := by
  match l with
  | [] =>
    rw [build_children.eq_def] at hc
    simp at hc
  | e :: rest =>
    rw [build_children.eq_def] at hc
    simp only [List.mem_append] at hc
    rcases hc with h1 | h2
    · cases e with
      | dir n r sv es =>
        simp only at h1
        by_cases hskip : (r && !sv) = true
        · rw [if_pos hskip] at h1
          simp at h1
        · rw [if_neg hskip] at h1
          cases hbt : build_tree (.dir n r sv es) false (depth + 1) max_depth with
          | none => rw [hbt] at h1; simp at h1
          | some c1 =>
            rw [hbt] at h1
            simp only [List.mem_singleton] at h1
            subst h1
            exact build_tree_height (.dir n r sv es) false (depth + 1) max_depth _ hbt
      | file n r sv stat =>
        simp only at h1
        by_cases hpos : 0 < stat.getD 0
        · rw [if_pos hpos] at h1
          simp only [List.mem_singleton] at h1
          subst h1
          simp [Node.height]
        · rw [if_neg hpos] at h1
          simp at h1
    · exact build_children_height rest depth max_depth c h2

end

/-- Claim C6: for every `max_depth` and every tree `build_tree` returns for
it, no entry lies at depth greater than `max_depth` below the root (the
root call is made at depth 0, and pruning never resets the depth
counter). -/
theorem C6_no_entry_beyond_max_depth (fs : FS) (isRoot : Bool) (max_depth : Nat)
    (t : Node) (h : build_tree fs isRoot 0 max_depth = some t) :
    t.height ≤ max_depth := by
  simpa using build_tree_height fs isRoot 0 max_depth t h

/-- Witness for C6: a two-level filesystem scanned with `max_depth = 1`
yields a tree of height exactly 1, within the bound. -/
theorem C6_no_entry_beyond_max_depth_witness :
    build_tree
        (FS.dir "C:" false false
          (some [FS.dir "a" false false (some [FS.file "f" false false (some 5)])]))
        true 0 1 =
      some (Node.mk "C:" true (some [Node.mk "a" true (some []) 0]) 0) ∧
    (Node.mk "C:" true (some [Node.mk "a" true (some []) 0]) 0).height ≤ 1 :=
  ⟨rfl,
    C6_no_entry_beyond_max_depth
      (FS.dir "C:" false false
        (some [FS.dir "a" false false (some [FS.file "f" false false (some 5)])]))
      true 1 (Node.mk "C:" true (some [Node.mk "a" true (some []) 0]) 0) rfl⟩

/-- Claim C1 counterexample: a directory below `max_depth` whose
enumeration cannot be started (access denied on the directory itself) is
pruned entirely — `build_tree` returns `none` (lines 182-183) — not
returned as a childless directory node as the claim states. -/
theorem C1_counterexample_denied_dir_is_none :
    build_tree (FS.dir "locked" false false none) false 1 3 = none :=
  rfl

/-- Claim C1 (amended): for every directory node whose child enumeration
cannot be started because access to the directory itself is denied (and
which is shallow enough to be enumerated at all, `depth < max_depth`),
`build_tree` returns `none`: the denied directory is omitted from the
tree altogether instead of appearing with no children. -/
theorem C1_denied_dir_absent (name : String) (r sv : Bool) (isRoot : Bool)
    (depth max_depth : Nat) (h : depth < max_depth) :
    build_tree (FS.dir name r sv none) isRoot depth max_depth = none := by
  rw [build_tree.eq_def]
  simp [FS.reparse, FS.sameVol, FS.isDir, h]

/-- Witness for the amended C1 at a concrete denied directory. -/
theorem C1_denied_dir_absent_witness :
    1 < 3 ∧ build_tree (FS.dir "x" false false none) false 1 3 = none :=
  ⟨by decide, C1_denied_dir_absent "x" false false false 1 3 (by decide)⟩

/-- A placement record accumulated by the renderer: the node and its
rectangle `(x1, y1, x2, y2)` as appended to `self.rectangles`
(src/main.py line 372). -/
abbrev Placement := Node × Int × Int × Int × Int

/-- The per-child share computation of the `draw_treemap` strip loops
(lines 413-418 and 427-432), pairing each node with its issued share of
`dim`: every child except the last gets `max(1, int(dim * size / total))`
and the running remainder drops by that share; the last child gets the
remainder.  `int(...)` of the non-negative float quotient is floor
division, modeled by `Int` division. -/
def strip_shares (dim total : Int) : List Node → Int → List (Node × Int)
  | [], _ => []
  | [n], remaining => [(n, remaining)]
  | n :: rest, remaining =>
    let nw := max 1 (dim * (n.size : Int) / total)
    (n, nw) :: strip_shares dim total rest (remaining - nw)

mutual

/-- `draw_node_recursive` (src/main.py lines 353-392) as the list of
placement records it appends: nothing when the rectangle is thinner than
2 in either direction; otherwise the node's own rectangle followed by the
placements of its positive-size children (sorted descending by size, the
Python stable sort modeled by the stable `List.mergeSort`), laid out in
the region inset by 2 on every side at `level + 1` — provided the node is
a directory whose `children` list is non-empty (Python truthiness of
`node.children`) and `level < max_draw_depth`.  Canvas drawing and the
text labels have no bearing on the placement list and are omitted. -/
def draw_node_recursive (node : Node) (x y width height : Int)
    (level max_draw_depth : Nat) : List Placement :=
  if width < 2 ∨ height < 2 then []
  else
    (node, x, y, x + width, y + height) ::
    (if node.is_dir then
      match node.children with
      | some (c :: cs) =>
        if h : level < max_draw_depth then
          if ((List.filter (fun ch => ch.size > 0) (c :: cs)).map Node.size).sum = 0 then []
          else
            draw_treemap ((List.filter (fun ch => ch.size > 0) (c :: cs)).mergeSort
                (fun a b => b.size ≤ a.size))
              (x + 2) (y + 2) (width - 4) (height - 4) (level + 1) max_draw_depth
        else []
      | _ => []
    else [])
termination_by (max_draw_depth - level, 0, 0)

/-- `draw_treemap` (lines 394-436): nothing for an empty list or a region
thinner than 4, nothing when the total size is 0, the whole region to a
single child, and otherwise a vertical strip split when `width > height`
and a horizontal one otherwise. -/
def draw_treemap (nodes : List Node) (x y width height : Int)
    (level max_draw_depth : Nat) : List Placement :=
  if nodes.isEmpty ∨ width < 4 ∨ height < 4 then []
  else
    if (((nodes.map Node.size).sum : Nat) : Int) = 0 then []
    else
      match nodes with
      | [n] => draw_node_recursive n x y width height level max_draw_depth
      | _ =>
        if width > height then
          placeV (strip_shares width ((nodes.map Node.size).sum : Nat) nodes width)
            x y height level max_draw_depth
        else
          placeH (strip_shares height ((nodes.map Node.size).sum : Nat) nodes height)
            x y width level max_draw_depth
termination_by (max_draw_depth - level, 2, nodes.length)

/-- The vertical-split loop of `draw_treemap` (lines 409-422) on the
precomputed shares: each child with a positive share is drawn at the
running x cursor with its share as width, and the cursor advances by the
share; non-positive shares (only ever the last child's remainder) are
skipped without advancing. -/
def placeV (pairs : List (Node × Int)) (cx y height : Int)
    (level max_draw_depth : Nat) : List Placement :=
  match pairs with
  | [] => []
  | (n, nw) :: rest =>
    (if nw > 0 then draw_node_recursive n cx y nw height level max_draw_depth else [])
      ++ placeV rest (if nw > 0 then cx + nw else cx) y height level max_draw_depth
termination_by (max_draw_depth - level, 1, pairs.length)

/-- The horizontal-split loop of `draw_treemap` (lines 423-436), the
mirror image of `placeV` along y. -/
def placeH (pairs : List (Node × Int)) (x cy width : Int)
    (level max_draw_depth : Nat) : List Placement :=
  match pairs with
  | [] => []
  | (n, nh) :: rest =>
    (if nh > 0 then draw_node_recursive n x cy width nh level max_draw_depth else [])
      ++ placeH rest x (if nh > 0 then cy + nh else cy) width level max_draw_depth
termination_by (max_draw_depth - level, 1, pairs.length)

end

mutual

theorem draw_node_recursive_min_size (node : Node) (x y w h : Int) (level mdd : Nat) :
    ∀ p ∈ draw_node_recursive node x y w h level mdd,
      2 ≤ p.2.2.2.1 - p.2.1 ∧ 2 ≤ p.2.2.2.2 - p.2.2.1 := by
  rw [draw_node_recursive]
  split
  · simp
  · rename_i hg
    push_neg at hg
    intro p hp
    rcases List.mem_cons.mp hp with h1 | h2
    · subst h1
      constructor <;> simp <;> omega
    · split at h2
      · split at h2
        · rename_i c cs
          split at h2
          · split at h2
            · simp at h2
            · exact draw_treemap_min_size _ _ _ _ _ _ _ p h2
          · simp at h2
        · simp at h2
      · simp at h2
termination_by (mdd - level, 0, 0)

theorem draw_treemap_min_size (nodes : List Node) (x y w h : Int) (level mdd : Nat) :
    ∀ p ∈ draw_treemap nodes x y w h level mdd,
      2 ≤ p.2.2.2.1 - p.2.1 ∧ 2 ≤ p.2.2.2.2 - p.2.2.1 := by
  rw [draw_treemap.eq_def]
  intro p hp
  split at hp
  · simp at hp
  · split at hp
    · simp at hp
    · split at hp
      · exact draw_node_recursive_min_size _ _ _ _ _ _ _ p hp
      · split at hp
        · exact placeV_min_size _ _ _ _ _ _ p hp
        · exact placeH_min_size _ _ _ _ _ _ p hp
termination_by (mdd - level, 2, nodes.length)

theorem placeV_min_size (pairs : List (Node × Int)) (cx y h : Int) (level mdd : Nat) :
    ∀ p ∈ placeV pairs cx y h level mdd,
      2 ≤ p.2.2.2.1 - p.2.1 ∧ 2 ≤ p.2.2.2.2 - p.2.2.1 := by
  rw [placeV.eq_def]
  split
  · simp
  · rename_i n nw rest
    intro p hp
    rcases List.mem_append.mp hp with h1 | h2
    · split at h1
      · exact draw_node_recursive_min_size _ _ _ _ _ _ _ p h1
      · simp at h1
    · exact placeV_min_size _ _ _ _ _ _ p h2
termination_by (mdd - level, 1, pairs.length)

theorem placeH_min_size (pairs : List (Node × Int)) (x cy w : Int) (level mdd : Nat) :
    ∀ p ∈ placeH pairs x cy w level mdd,
      2 ≤ p.2.2.2.1 - p.2.1 ∧ 2 ≤ p.2.2.2.2 - p.2.2.1 := by
  rw [placeH.eq_def]
  split
  · simp
  · rename_i n nh rest
    intro p hp
    rcases List.mem_append.mp hp with h1 | h2
    · split at h1
      · exact draw_node_recursive_min_size _ _ _ _ _ _ _ p h1
      · simp at h1
    · exact placeH_min_size _ _ _ _ _ _ p h2
termination_by (mdd - level, 1, pairs.length)

end

/-- Claim C8: every placement rectangle the layout emits, for any node at
any level, spans at least 2 units in both directions: `x2 - x1 ≥ 2` and
`y2 - y1 ≥ 2`; no degenerate or negative-extent rectangle ever appears. -/
theorem C8_no_degenerate_placement (node : Node) (x y width height : Int)
    (level max_draw_depth : Nat) (p : Placement)
    (hp : p ∈ draw_node_recursive node x y width height level max_draw_depth) :
    2 ≤ p.2.2.2.1 - p.2.1 ∧ 2 ≤ p.2.2.2.2 - p.2.2.1 :=
  draw_node_recursive_min_size node x y width height level max_draw_depth p hp

/-- Witness for C8 on a concrete file placement. -/
theorem C8_no_degenerate_placement_witness :
    (Node.mk "f" false none 7, (0 : Int), (0 : Int), (10 : Int), (10 : Int)) ∈
      draw_node_recursive (.mk "f" false none 7) 0 0 10 10 0 1 ∧
    (2 ≤ (10 : Int) - 0 ∧ 2 ≤ (10 : Int) - 0) := by
  have hm : (Node.mk "f" false none 7, (0 : Int), (0 : Int), (10 : Int), (10 : Int)) ∈
      draw_node_recursive (.mk "f" false none 7) 0 0 10 10 0 1 := by
    simp [draw_node_recursive, Node.is_dir, Node.children]
  exact ⟨hm, C8_no_degenerate_placement _ 0 0 10 10 0 1 _ hm⟩

/-- Claim C5 counterexample: a directory with a single positive-size child,
laid out in `(0,0,40,40)` at `level = 0 < max_draw_depth = 1`, places the
child at `(2,2,38,38)` — the region inset by the 2-unit border of
`draw_node_recursive` (line 392) — and no placement of the child at
`(0,0,40,40)` exists. -/
theorem C5_counterexample_single_child_inset :
    draw_node_recursive (.mk "d" true (some [.mk "f" false none 7]) 7) 0 0 40 40 0 1 =
      [(.mk "d" true (some [.mk "f" false none 7]) 7, 0, 0, 40, 40),
       (.mk "f" false none 7, 2, 2, 38, 38)] ∧
    (Node.mk "f" false none 7, (0 : Int), (0 : Int), (40 : Int), (40 : Int)) ∉
      draw_node_recursive (.mk "d" true (some [.mk "f" false none 7]) 7) 0 0 40 40 0 1 := by
  have heval :
      draw_node_recursive (.mk "d" true (some [.mk "f" false none 7]) 7) 0 0 40 40 0 1 =
        [(.mk "d" true (some [.mk "f" false none 7]) 7, 0, 0, 40, 40),
         (.mk "f" false none 7, 2, 2, 38, 38)] := by
    simp [draw_node_recursive, draw_treemap, Node.is_dir, Node.children, Node.size,
      List.mergeSort_singleton]
  refine ⟨heval, ?_⟩
  rw [heval]
  simp [Node.mk.injEq]

/-- Claim C5 (amended): a directory with exactly one child of positive size
laid out in `(0,0,40,40)` below the drawing depth places itself at
`(0,0,40,40)` and the child at exactly `(2,2,38,38)`: the single child
receives the entire *inset* region `(x+2, y+2, width-4, height-4)`, not
the full rectangle. -/
theorem C5_single_child_gets_inset_region (name : String) (c : Node) (s : Nat)
    (level max_draw_depth : Nat) (hlt : level < max_draw_depth) (hpos : 0 < c.size) :
    (draw_node_recursive (.mk name true (some [c]) s) 0 0 40 40 level max_draw_depth)[0]? =
      some (Node.mk name true (some [c]) s, 0, 0, 40, 40) ∧
    (draw_node_recursive (.mk name true (some [c]) s) 0 0 40 40 level max_draw_depth)[1]? =
      some (c, 2, 2, 38, 38) := by
  have hpos' : c.size ≠ 0 := Nat.pos_iff_ne_zero.mp hpos
  simp [draw_node_recursive, draw_treemap, Node.is_dir, Node.children,
    List.mergeSort_singleton, hpos, hpos', hlt]

/-- Witness for the amended C5 on a concrete single-file directory. -/
theorem C5_single_child_gets_inset_region_witness :
    0 < 1 ∧ 0 < (Node.mk "f" false none 7).size ∧
    (draw_node_recursive (.mk "d" true (some [.mk "f" false none 7]) 7) 0 0 40 40 0 1)[1]? =
      some (Node.mk "f" false none 7, 2, 2, 38, 38) :=
  ⟨by decide, by decide,
    (C5_single_child_gets_inset_region "d" (.mk "f" false none 7) 7 0 1
      (by decide) (by decide)).2⟩

/-- `strip_shares` issues one share per child. -/
theorem strip_shares_length (dim total : Int) (l : List Node) (r : Int) :
    (strip_shares dim total l r).length = l.length := by
  match l with
  | [] => rfl
  | [n] => rfl
  | n1 :: n2 :: rest =>
    simp only [strip_shares, List.length_cons]
    rw [strip_shares_length dim total (n2 :: rest)]
    simp

/-- The shares of a non-empty strip sum to the initial remainder: every
share but the last is subtracted from the running remainder and the last
child absorbs what is left. -/
theorem strip_shares_sum (dim total : Int) (l : List Node) (r : Int) (h : l ≠ []) :
    ((strip_shares dim total l r).map Prod.snd).sum = r := by
  match l with
  | [] => exact absurd rfl h
  | [n] => simp [strip_shares]
  | n1 :: n2 :: rest =>
    have ih := strip_shares_sum dim total (n2 :: rest)
      (r - max 1 (dim * (n1.size : Int) / total)) (by simp)
    simp only [strip_shares, List.map_cons, List.sum_cons, ih]
    omega

/-- Every share except the last equals `max 1 (dim * size / total)` for
the corresponding child, independent of the running remainder. -/
theorem strip_shares_getElem (dim total : Int) (l : List Node) (r : Int) (i : Nat)
    (hi : i + 1 < l.length) :
    (strip_shares dim total l r)[i]?.map Prod.snd =
      l[i]?.map (fun n => max 1 (dim * (n.size : Int) / total)) := by
  match l, i with
  | [], i => simp at hi
  | [n], i =>
    simp only [List.length_singleton] at hi
    omega
  | n1 :: n2 :: rest, 0 =>
    simp [strip_shares]
  | n1 :: n2 :: rest, (i + 1) =>
    have hi' : i + 1 < (n2 :: rest).length := by
      simp only [List.length_cons] at hi ⊢
      omega
    have ih := strip_shares_getElem dim total (n2 :: rest)
      (r - max 1 (dim * (n1.size : Int) / total)) i hi'
    simp only [strip_shares, List.getElem?_cons_succ]
    exact ih

/-- A non-empty list of integers ends with its sum minus the sum of its
other elements. -/
theorem getLast?_eq_sum_sub_dropLast (l : List Int) (h : l ≠ []) :
    l.getLast? = some (l.sum - l.dropLast.sum) := by
  have hsplit := List.dropLast_append_getLast h
  have hsum : l.sum = l.dropLast.sum + l.getLast h := by
    conv_lhs => rw [← hsplit]
    simp
  rw [List.getLast?_eq_getLast l h]
  rw [hsum]
  simp

/-- Claim C2: in the strip-split step, for an ordered list of two or more
children of positive size with positive total (the total being the sum of
the sizes, as `draw_treemap` computes it) and a non-negative dimension:
every child except the last receives `max 1 (dim * size / total)` — the
floor of `dim * size / total` clamped to a minimum of 1 — the shares sum
exactly to the dimension, and the last share is exactly the dimension
minus the shares issued before it. -/
theorem C2_strip_shares_spec (nodes : List Node) (dim : Int)
    (hlen : 2 ≤ nodes.length) (_hdim : 0 ≤ dim)
    (_hpos : ∀ n ∈ nodes, 0 < n.size) :
    (∀ i, i + 1 < nodes.length →
      (strip_shares dim ((nodes.map Node.size).sum : Nat) nodes dim)[i]?.map Prod.snd =
        nodes[i]?.map (fun n =>
          max 1 (dim * (n.size : Int) / ((nodes.map Node.size).sum : Nat)))) ∧
    ((strip_shares dim ((nodes.map Node.size).sum : Nat) nodes dim).map Prod.snd).sum =
      dim ∧
    ((strip_shares dim ((nodes.map Node.size).sum : Nat) nodes dim).map
        Prod.snd).getLast? =
      some (dim -
        ((strip_shares dim ((nodes.map Node.size).sum : Nat) nodes dim).map
            Prod.snd).dropLast.sum) := by
  have hne : nodes ≠ [] := by
    intro hnil
    rw [hnil] at hlen
    simp at hlen
  have hsum := strip_shares_sum dim ((nodes.map Node.size).sum : Nat) nodes dim hne
  refine ⟨fun i hi => strip_shares_getElem _ _ _ _ i hi, hsum, ?_⟩
  have hne' : ((strip_shares dim ((nodes.map Node.size).sum : Nat) nodes dim).map
      Prod.snd) ≠ [] := by
    intro hnil
    have := congrArg List.length hnil
    simp only [List.length_map, strip_shares_length, List.length_nil] at this
    rw [this] at hlen
    simp at hlen
  rw [getLast?_eq_sum_sub_dropLast _ hne', hsum]

/-- Witness for C2 on the spec's own example: children of sizes
`[100, 100, 800]` split over dimension 100 receive shares `[10, 10, 80]`,
summing to 100. -/
theorem C2_strip_shares_spec_witness :
    2 ≤ ([Node.mk "a" false none 100, Node.mk "b" false none 100,
          Node.mk "c" false none 800] : List Node).length ∧
    ((strip_shares 100
        (([Node.mk "a" false none 100, Node.mk "b" false none 100,
           Node.mk "c" false none 800].map Node.size).sum : Nat)
        [Node.mk "a" false none 100, Node.mk "b" false none 100,
         Node.mk "c" false none 800] 100).map Prod.snd).sum = 100 :=
  ⟨by decide,
    (C2_strip_shares_spec
      [Node.mk "a" false none 100, Node.mk "b" false none 100,
       Node.mk "c" false none 800] 100
      (by decide) (by decide) (by decide)).2.1⟩
